import Mathlib

/-!
Verification development for the `posener/cmd` command-tree parsing library.

The embedding follows the Go sources:
  * `args.go` — positional-argument values (`ArgsStr`, `ArgsInt`);
  * `cmd.go` — the command tree (`SubCmd`), declaration API (`SubCommand`,
    `ArgsVar`), the recursive parser (`parse`, `setArgs`, `checkFlagsTree`)
    and the usage line of `Usage`;
  * the `subcmd`-variant flag declaration wrappers (`checkNewFlag`, `String`,
    `Bool`, ...).

Go's pointer sharing (a child's flag set registers the parent's `flag.Value`
pointers; a child shares its parent's `*argsData`) is modelled with explicit
heaps: flag values live in `St.flagHeap`, positional bindings in
`St.bindStore`, both keyed by a `Nat` reference allocated at declaration time.
Mutation is modelled by explicit state passing.
-/

/-- A flag declared on a command node.  `ref` is the heap cell holding the
flag's current value; `copyFlagSet` (cmd.go) registers the same `flag.Value`
pointer in the child's set, which here means the copied `FlagDef` keeps the
same `ref`.  `isBool` distinguishes Go's `boolFlag` values, which do not
consume a separate value token. -/
structure FlagDef where
  name : String
  isBool : Bool
  ref : Nat
deriving Repr, DecidableEq

/-- Positional-argument values from args.go: `ArgsStr []string` and
`ArgsInt []int`.  `capacity` models Go's `cap` of the slice: a value created
with `make(ArgsStr, 0, K)` has `capacity = K`, a plain `var` declaration has
`capacity = 0`. -/
inductive ABind where
  | str (capacity : Nat) (val : List String)
  | int (capacity : Nat) (val : List Int)
deriving Repr, DecidableEq

/-- `argsData` (cmd.go): the positional binding of a node — its value, the
usage fragment and details texts, and the `predict` check configuration.
The external `predict.Config.Check` is modelled by its only library-surfaced
behaviour: `none` (no `OptCheck`, every token accepted — the default) or
`some allowed` (`OptCheck` with a list of valid values). -/
structure ABindData where
  value : ABind
  check : Option (List String)
  usage : String
  details : String
deriving Repr, DecidableEq

/-- One node of the command tree (`SubCmd` in cmd.go): full path name, the
node's flag set, the `Parsed` state of its `flag.FlagSet`, the optional
reference of its positional binding (`args *argsData`; shared with children
created after the declaration), and the named sub commands. -/
inductive CTree where
  | node (name : String) (flags : List FlagDef) (parsed : Bool)
      (argsb : Option Nat) (sub : List (String × CTree))
deriving Repr

def CTree.name : CTree → String
  | .node n _ _ _ _ => n

def CTree.flags : CTree → List FlagDef
  | .node _ f _ _ _ => f

def CTree.parsed : CTree → Bool
  | .node _ _ p _ _ => p

def CTree.argsb : CTree → Option Nat
  | .node _ _ _ a _ => a

def CTree.sub : CTree → List (String × CTree)
  | .node _ _ _ _ s => s

def CTree.withParsed : CTree → Bool → CTree
  | .node n f _ a s, p => .node n f p a s

def CTree.withSub : CTree → List (String × CTree) → CTree
  | .node n f p a _, s => .node n f p a s

/-- Mutable state outside the tree: flag value cells and positional binding
cells, shared by reference between nodes. -/
structure St where
  flagHeap : List (Nat × String)
  bindStore : List (Nat × ABindData)
deriving Repr, DecidableEq

def alookup {α : Type} : List (Nat × α) → Nat → Option α
  | [], _ => none
  | (k, v) :: rest, r => if k = r then some v else alookup rest r

def aset {α : Type} : List (Nat × α) → Nat → α → List (Nat × α)
  | [], k, v => [(k, v)]
  | (k', v') :: rest, k, v =>
      if k' = k then (k, v) :: rest else (k', v') :: aset rest k v

def lookupSub : List (String × CTree) → String → Option CTree
  | [], _ => none
  | (n, c) :: rest, s => if n = s then some c else lookupSub rest s

def replaceSub : List (String × CTree) → String → CTree → List (String × CTree)
  | [], _, _ => []
  | (n, c) :: rest, s, c' =>
      if n = s then (n, c') :: rest else (n, c) :: replaceSub rest s c'

/-- Node lookup along a path of sub-command names from a given node. -/
def getNode : CTree → List String → Option CTree
  | t, [] => some t
  | t, s :: p =>
    match lookupSub t.sub s with
    | some c => getNode c p
    | none => none

/-- The `Parsed` state of the node at a path ((*SubCmd).Parsed returns
`flagSet.Parsed()`, true once `flag.FlagSet.Parse` was invoked on the node). -/
def parsedAt (t : CTree) (p : List String) : Option Bool :=
  (getNode t p).map CTree.parsed

/-- `strconv.Atoi` digit accumulator. -/
def digitsAcc : Nat → List Char → Option Nat
  | acc, [] => some acc
  | acc, c :: rest =>
      if c.isDigit then digitsAcc (acc * 10 + (c.toNat - '0'.toNat)) rest
      else none

/-- `strconv.Atoi`: optional sign, decimal digits, 64-bit range check. -/
def goAtoi (s : String) : Option Int :=
  let core : Bool → List Char → Option Int := fun neg cs =>
    match cs with
    | [] => none
    | _ =>
      match digitsAcc 0 cs with
      | none => none
      | some n =>
          if neg then (if (n : Int) ≤ 2 ^ 63 then some (-(n : Int)) else none)
          else (if (n : Int) ≤ 2 ^ 63 - 1 then some (n : Int) else none)
  match s.data with
  | '+' :: rest => core false rest
  | '-' :: rest => core true rest
  | cs => core false cs

/-- `strconv.ParseBool`: the exact set of accepted literals. -/
def goParseBool (s : String) : Option Bool :=
  if s = "1" ∨ s = "t" ∨ s = "T" ∨ s = "true" ∨ s = "TRUE" ∨ s = "True" then
    some true
  else if s = "0" ∨ s = "f" ∨ s = "F" ∨ s = "false" ∨ s = "FALSE" ∨ s = "False" then
    some false
  else none

/-- Go `fmt`'s `%v` rendering of a `[]string`. -/
def goFmtStrList (l : List String) : String :=
  "[" ++ String.intercalate " " l ++ "]"

/-- The conversion loop of `(*ArgsInt).Set` (args.go lines 63-69): convert
tokens left to right, appending to the receiver (which was reset to length
zero), stopping at the first non-integer token with an error naming its
position and value. -/
def argsIntLoop : List String → Nat → List Int → List Int × Option String
  | [], _, acc => (acc, none)
  | a :: rest, i, acc =>
    match goAtoi a with
    | some v => argsIntLoop rest (i + 1) (acc ++ [v])
    | none =>
        (acc, some ("invalid int positional argument at position " ++
          toString i ++ " with value " ++ a))

/-- `Set` of the two positional values (args.go).  Both first check
`cap(*a) > 0 && len(args) != cap(*a)` and fail without touching the receiver.
`ArgsStr` then replaces the whole slice (`*a = args`; the resulting slice
header has the capacity of `args`, modelled as its length).  `ArgsInt` resets
the length to zero and appends converted integers until the first failure, so
on conversion error the receiver holds the successfully converted prefix.
The returned pair is (receiver after the call, optional error). -/
def ABind.goSet : ABind → List String → ABind × Option String
  | .str c v, args =>
      if c > 0 ∧ args.length ≠ c then
        (.str c v, some ("required " ++ toString c ++ " positional args, got " ++
          goFmtStrList args))
      else (.str args.length args, none)
  | .int c v, args =>
      if c > 0 ∧ args.length ≠ c then
        (.int c v, some ("required " ++ toString c ++ " positional args, got " ++
          goFmtStrList args))
      else
        let r := argsIntLoop args 0 []
        (.int c r.1, r.2)

/-- Outcome of examining one token in Go's `flag.(*FlagSet).parseOne`:
stop without consuming; consume a lone `"--"` and stop; a syntax or lookup
error; the built-in help flag; set a flag to an inline (or boolean-implicit)
value; or set a non-boolean flag from the next token. -/
inductive TokAction where
  | stop
  | stopConsume
  | err (m : String)
  | help
  | setValue (f : FlagDef) (v : String)
  | setNext (f : FlagDef)
deriving Repr, DecidableEq

def findFlag : List FlagDef → String → Option FlagDef
  | [], _ => none
  | f :: rest, n => if f.name = n then some f else findFlag rest n

/-- Scan for `'='` starting from the second character of the flag name
(Go starts its loop at index 1), returning the name part and, when found,
the value part after the first `'='`. -/
def splitEqAux : List Char → List Char × Option (List Char)
  | [] => ([], none)
  | '=' :: rest => ([], some rest)
  | c :: rest =>
      let r := splitEqAux rest
      (c :: r.1, r.2)

def splitFlagName : List Char → List Char × Option (List Char)
  | [] => ([], none)
  | c :: rest =>
      let r := splitEqAux rest
      (c :: r.1, r.2)

/-- The name-handling part of `flag.parseOne` once the leading dashes were
stripped: bad-syntax check, `'='` splitting, formal lookup, the built-in
`help`/`h` flags, and the boolean/non-boolean value policy. -/
def classifyName (flags : List FlagDef) (orig : String) (nameCs : List Char) :
    TokAction :=
  match nameCs with
  | [] => .err ("bad flag syntax: " ++ orig)
  | c :: _ =>
    if c = '-' ∨ c = '=' then .err ("bad flag syntax: " ++ orig)
    else
      let r := splitFlagName nameCs
      let name : String := ⟨r.1⟩
      match findFlag flags name with
      | none =>
          if name = "help" ∨ name = "h" then .help
          else .err ("flag provided but not defined: -" ++ name)
      | some f =>
          match r.2 with
          | some v => .setValue f ⟨v⟩
          | none => if f.isBool then .setValue f "true" else .setNext f

/-- `flag.parseOne`'s token dissection: tokens of length < 2 or without a
leading dash stop flag parsing; a lone `"--"` is consumed and stops; one or
two dashes are stripped before the name is processed. -/
def classifyToken (flags : List FlagDef) (s : String) : TokAction :=
  match s.data with
  | '-' :: '-' :: [] => .stopConsume
  | '-' :: '-' :: c :: rest => classifyName flags s (c :: rest)
  | '-' :: c :: rest => classifyName flags s (c :: rest)
  | _ => .stop

/-- `flag.Value.Set` on the heap cell of a flag: strings always succeed,
booleans go through `strconv.ParseBool` and store the formatted result. -/
def setFlagValue (heap : List (Nat × String)) (f : FlagDef) (v : String) :
    Except String (List (Nat × String)) :=
  if f.isBool then
    match goParseBool v with
    | some b => .ok (aset heap f.ref (if b then "true" else "false"))
    | none =>
        .error ("invalid boolean value " ++ v ++ " for -" ++ f.name ++
          ": parse error")
  else .ok (aset heap f.ref v)

/-- Result of `flag.(*FlagSet).Parse`: remaining arguments on success,
`flag.ErrHelp` for the built-in help flag, or an error message. -/
inductive FRes where
  | ok (rest : List String)
  | help
  | err (m : String)
deriving Repr, DecidableEq

/-- The `parseOne` loop of `flag.(*FlagSet).Parse` (with `ContinueOnError`:
the first error is returned).  Flag values set before the failing token keep
their new heap values, matching Go's in-place mutation. -/
def parseAll (flags : List FlagDef) :
    List (Nat × String) → List String → List (Nat × String) × FRes
  | heap, [] => (heap, .ok [])
  | heap, s :: rest =>
    match classifyToken flags s with
    | .stop => (heap, .ok (s :: rest))
    | .stopConsume => (heap, .ok rest)
    | .err m => (heap, .err m)
    | .help => (heap, .help)
    | .setValue f v =>
      match setFlagValue heap f v with
      | .ok heap2 => parseAll flags heap2 rest
      | .error m => (heap, .err m)
    | .setNext f =>
      match rest with
      | [] => (heap, .err ("flag needs an argument: -" ++ f.name))
      | v :: rest2 =>
        match setFlagValue heap f v with
        | .ok heap2 => parseAll flags heap2 rest2
        | .error m => (heap, .err m)

def flagNames (l : List FlagDef) : List String := l.map FlagDef.name

mutual

/-- `(*SubCmd).checkFlagsTree` (cmd.go lines 461-474) as a predicate: every
name in `parent` must be a flag of the current node, recursively with the
current node's names as the children's `parent`.  The Go version panics on
the first violation (with a message naming the flag and node, in Go map
iteration order); here only the violation itself is decided. -/
def checkFlagsTreeOk : CTree → List String → Bool
  | .node _ fl _ _ sub, parent =>
      parent.all (fun p => (flagNames fl).contains p) &&
        checkFlagsSubs sub (flagNames fl)

def checkFlagsSubs : List (String × CTree) → List String → Bool
  | [], _ => true
  | (_, c) :: rest, cur => checkFlagsTreeOk c cur && checkFlagsSubs rest cur

end

/-- The panic message of `checkFlagsTree`; the Go message interpolates the
offending flag and node names in nondeterministic map order, so only the
fixed phrase is modelled. -/
def checkFlagsTreeMsg : String := "flag was defined after sub commands"

/-- Parse errors: the distinguished `flag.ErrHelp` value, or an ordinary
error with a message. -/
inductive Err where
  | help
  | msg (s : String)
deriving Repr, DecidableEq

/-- The `Error()` text of an error (`flag.ErrHelp` reads
"flag: help requested"); this is what `%v` formatting produces. -/
def errText : Err → String
  | .help => "flag: help requested"
  | .msg s => s

/-- Result of `(*SubCmd).parse`: a Go panic, an error, or the remaining
argument list. -/
inductive PRes where
  | fatal (m : String)
  | err (e : Err)
  | ok (rest : List String)
deriving Repr, DecidableEq

/-- `predict.Config.Check` of a single token under the modelled
configuration: no `OptCheck` accepts everything, `OptCheck` with a value
list requires membership. -/
def predictCheckOk (check : Option (List String)) (a : String) : Bool :=
  match check with
  | none => true
  | some allowed => allowed.contains a

/-- `(*SubCmd).setArgs` (cmd.go lines 352-366): without a binding, leftover
tokens are an error; with one, each token passes the predict check in order,
then the binding's `Set` consumes the whole list (the command returns a `nil`
remainder).  The binding cell is the shared `*argsData`, so the store is
updated in place. -/
def setArgsGo (argsb : Option Nat) (store : List (Nat × ABindData))
    (args : List String) :
    List (Nat × ABindData) × Except String (List String) :=
  match argsb with
  | none =>
      if args.length > 0 then
        (store, .error ("positional args not expected, got " ++ goFmtStrList args))
      else (store, .ok args)
  | some r =>
    match alookup store r with
    | none => (store, .error "missing binding")
    | some b =>
      match args.find? (fun a => !predictCheckOk b.check a) with
      | some a => (store, .error ("arg " ++ a ++ ": invalid value"))
      | none =>
          let sr := b.value.goSet args
          let store2 := aset store r { b with value := sr.1 }
          match sr.2 with
          | none => (store2, .ok [])
          | some m => (store2, .error m)

/-- The flag-and-positional stage of `(*SubCmd).parse` (cmd.go lines
336-349): `c.FlagSet.Parse(args)` (which marks the node `Parsed` even when
it fails), the "bad flags" wrap, then `setArgs` with the "bad positional
args" wrap.  An inner `flag.ErrHelp` from the flag set is wrapped into the
message like Go's `%w` formatting renders it. -/
def flagStage (t : CTree) (st : St) (args : List String) : CTree × St × PRes :=
  let t2 := t.withParsed true
  let pr := parseAll t2.flags st.flagHeap args
  let st2 : St := { st with flagHeap := pr.1 }
  match pr.2 with
  | .help => (t2, st2, .err (.msg (t2.name ++ ": bad flags: " ++ errText .help)))
  | .err m => (t2, st2, .err (.msg (t2.name ++ ": bad flags: " ++ m)))
  | .ok rest =>
    let ar := setArgsGo t2.argsb st2.bindStore rest
    let st3 : St := { st2 with bindStore := ar.1 }
    match ar.2 with
    | .error m =>
        (t2, st3, .err (.msg (t2.name ++ ": bad positional args: " ++ m)))
    | .ok rest2 => (t2, st3, .ok rest2)

/-- `(*SubCmd).parse` (cmd.go lines 304-350).  The first token is the
command (or matched sub command) name.  A node with sub commands dispatches
on the next token: missing token, help tokens, unknown command, or recursion
into the child with the argument slice beginning at the matched name; a
child error is wrapped `"<name> > <error text>"` (Go's `%v` formatting,
which forgets the child error's identity).  Then the node's own flag set
parses the remaining tokens and positional arguments are collected. -/
def parseGo : CTree → St → List String → CTree × St × PRes
  | t, st, [] => (t, st, .fatal "must be at least the command in arguments")
  | t, st, _cmd :: args1 =>
    if checkFlagsTreeOk t [] = false then (t, st, .fatal checkFlagsTreeMsg)
    else if t.sub.length > 0 then
      match args1 with
      | [] => (t, st, .err (.msg "must provide sub command"))
      | name :: _ =>
        match lookupSub t.sub name with
        | none =>
            if name = "-h" ∨ name = "-help" ∨ name = "--help" then
              (t, st, .err .help)
            else (t, st, .err (.msg ("invalid command: " ++ name)))
        | some child =>
          let r := parseGo child st args1
          let t2 := t.withSub (replaceSub t.sub name r.1)
          match r.2.2 with
          | .ok rest => flagStage t2 r.2.1 rest
          | .err e =>
              (t2, r.2.1, .err (.msg (t.name ++ " > " ++ errText e)))
          | .fatal m => (t2, r.2.1, .fatal m)
    else flagStage t st args1

/-- Byte-wise lexicographic order on strings as used by Go's `sort.Strings`;
code-point comparison coincides with UTF-8 byte comparison. -/
def charListLt : List Char → List Char → Bool
  | [], [] => false
  | [], _ :: _ => true
  | _ :: _, [] => false
  | a :: as, b :: bs =>
      if a.toNat < b.toNat then true
      else if b.toNat < a.toNat then false
      else charListLt as bs

def strLe (a b : String) : Bool := !(charListLt b.data a.data)

def insertSorted (s : String) : List String → List String
  | [] => [s]
  | x :: rest => if strLe s x then s :: x :: rest else x :: insertSorted s rest

/-- `sort.Strings`: sort ascending (insertion sort is used here; any correct
sort produces the same list). -/
def sortStrings (l : List String) : List String := l.foldr insertSorted []

/-- `(*SubCmd).subNames` (cmd.go lines 441-448): all sub command names,
ordered alphabetically. -/
def subNames (t : CTree) : List String :=
  sortStrings (t.sub.map Prod.fst)

/-- `(*SubCmd).hasFlags`: `VisitAll` marks true iff at least one flag is
defined. -/
def hasFlags (t : CTree) : Bool := !t.flags.isEmpty

/-- The usage fragment of the node's positional binding (`c.args.usage`),
read through the shared binding cell; empty for a dangling reference (which
declaration never produces). -/
def bindUsage (t : CTree) (store : List (Nat × ABindData)) : String :=
  ((t.argsb.bind (alookup store)).map ABindData.usage).getD ""

/-- The usage line constructed by `(*SubCmd).Usage` (cmd.go lines 374-390),
following the Go statement sequence: start from `"Usage: " + c.name`; a leaf
appends `" [flags]"` when flags exist and the positional usage fragment when
a binding exists; otherwise the sorted sub command names are joined with
`"|"`, wrapped in brackets, and replaced by `"[subcommands...]"` when the
joined string's `len` (bytes in Go, hence UTF-8 bytes here) exceeds 30. -/
def usageLine (t : CTree) (store : List (Nat × ABindData)) : String :=
  let subs := subNames t
  let u1 := "Usage: " ++ t.name
  if subs.length = 0 then
    let u2 := if hasFlags t then u1 ++ " [flags]" else u1
    if t.argsb.isSome then u2 ++ " " ++ bindUsage t store else u2
  else
    let sc := "[" ++ String.intercalate "|" subs ++ "]"
    let sc2 := if sc.utf8ByteSize > 30 then "[subcommands...]" else sc
    u1 ++ " " ++ sc2

/-- Builder state of the declaration phase: the tree under construction, the
next fresh heap reference, and the value/binding heaps. -/
structure BSt where
  t : CTree
  next : Nat
  st : St
deriving Repr

/-- `New` with `OptName` (cmd.go): a root node with the given name, no
flags, no sub commands, no positional binding. -/
def newRoot (name : String) : BSt :=
  ⟨.node name [] false none [], 0, ⟨[], []⟩⟩

/-- Apply a declaration step to the node at a path (Go reaches the node
through the `*SubCmd` pointer returned by `SubCommand`). -/
def modifyAt (f : CTree → Except String CTree) :
    List String → CTree → Except String CTree
  | [], t => f t
  | s :: p, t =>
    match lookupSub t.sub s with
    | none => .error "no such node"
    | some c =>
      match modifyAt f p c with
      | .ok c2 => .ok (t.withSub (replaceSub t.sub s c2))
      | .error e => .error e

/-- `(*SubCmd).SubCommand` (cmd.go lines 232-257) on one node: name
validation, duplicate check, and creation of the child, which receives a
copy of the parent's flag set (same value cells), the parent's positional
binding reference (`subCmd.args = c.args`), the extended path name, and a
fresh un-parsed flag set. -/
def subCommandNode (name : String) (parent : CTree) : Except String CTree :=
  if name.length = 0 then .error "subcommand can't be empty"
  else if name.data.head? = some '-' then .error "subcommand can't start with a dash"
  else if (lookupSub parent.sub name).isSome then
    .error ("sub command \"" ++ name ++ "\" already exists")
  else
    .ok (parent.withSub (parent.sub ++
      [(name, .node (parent.name ++ " " ++ name) parent.flags false parent.argsb [])]))

def subCommandAt (bst : BSt) (p : List String) (name : String) :
    Except String BSt :=
  match modifyAt (subCommandNode name) p bst.t with
  | .error e => .error e
  | .ok t2 => .ok { bst with t := t2 }

/-- Flag declaration on one node: `checkNewFlag` (panic when the node
already has sub commands), then `flag.FlagSet.Var`, which panics on a
redefined name; on success the new flag with its fresh value cell reference
is appended to the node's flag set. -/
def newFlagNode (name : String) (isB : Bool) (ref : Nat) (n : CTree) :
    Except String CTree :=
  if n.sub.length > 0 then
    .error "flags must be defined before defining sub commands"
  else if (findFlag n.flags name).isSome then
    .error (n.name ++ " flag redefined: " ++ name)
  else
    .ok (.node n.name (n.flags ++ [⟨name, isB, ref⟩]) n.parsed n.argsb n.sub)

/-- String-flag declaration (`String` of the flag wrappers): `newFlagNode`
at the addressed node plus allocation of the value cell holding the
default. -/
def stringFlagAt (bst : BSt) (p : List String) (name dflt : String) :
    Except String BSt :=
  match modifyAt (newFlagNode name false bst.next) p bst.t with
  | .error e => .error e
  | .ok t2 =>
      .ok ⟨t2, bst.next + 1,
        { bst.st with flagHeap := aset bst.st.flagHeap bst.next dflt }⟩

/-- Bool-flag declaration, as `stringFlagAt` but with a boolean value cell. -/
def boolFlagAt (bst : BSt) (p : List String) (name : String) (dflt : Bool) :
    Except String BSt :=
  match modifyAt (newFlagNode name true bst.next) p bst.t with
  | .error e => .error e
  | .ok t2 =>
      let d : String := if dflt then "true" else "false"
      .ok ⟨t2, bst.next + 1,
        { bst.st with flagHeap := aset bst.st.flagHeap bst.next d }⟩

/-- `(*SubCmd).ArgsVar` on one node (cmd.go lines 283-302): refused when the
node already has sub commands or already has a binding (own or inherited);
on success the node records the new shared binding cell's reference. -/
def argsVarNode (ref : Nat) (n : CTree) : Except String CTree :=
  if n.sub.length > 0 then
    .error "positional args must be defined before defining sub commands"
  else if n.argsb.isSome then
    .error "Args() or ArgsVar() called more than once."
  else
    .ok (.node n.name n.flags n.parsed (some ref) n.sub)

/-- `(*SubCmd).ArgsVar`: `argsVarNode` at the addressed node plus allocation
of the binding cell, with the `"[args...]"` default usage for an empty usage
string. -/
def argsVarAt (bst : BSt) (p : List String) (v : ABind)
    (check : Option (List String)) (usage details : String) :
    Except String BSt :=
  match modifyAt (argsVarNode bst.next) p bst.t with
  | .error e => .error e
  | .ok t2 =>
      let u : String := if usage = "" then "[args...]" else usage
      let cell : ABindData := ⟨v, check, u, details⟩
      .ok ⟨t2, bst.next + 1,
        { bst.st with bindStore := aset bst.st.bindStore bst.next cell }⟩

/-- Declaration operations relevant to positional-argument placement: adding
a sub command and declaring positional arguments (`Args`/`ArgsVar` with an
unbounded `ArgsStr`). -/
inductive BOp where
  | subc (p : List String) (name : String)
  | argsv (p : List String)
deriving Repr, DecidableEq

def applyOp (bst : BSt) : BOp → Except String BSt
  | .subc p name => subCommandAt bst p name
  | .argsv p => argsVarAt bst p (.str 0 []) none "" ""

def runOpsFrom (bst : BSt) : List BOp → Except String BSt
  | [] => .ok bst
  | op :: rest =>
    match applyOp bst op with
    | .ok b2 => runOpsFrom b2 rest
    | .error e => .error e

/-- A whole declaration phase run from a fresh root. -/
def runOps (ops : List BOp) : Except String BSt :=
  runOpsFrom (newRoot "cmd") ops

mutual

/-- No node of the tree has been parsed yet (the state of a freshly declared
tree). -/
def allUnparsed : CTree → Bool
  | .node _ _ p _ sub => (!p) && allUnparsedSubs sub

def allUnparsedSubs : List (String × CTree) → Bool
  | [] => true
  | (_, c) :: rest => allUnparsed c && allUnparsedSubs rest

end

/-- The chain of sub-command names that a token sequence selects: while the
current node has sub commands, the token after the current node's own name
must match a child, and the walk continues there.  On inputs that parse
successfully this is the path from the root to the selected leaf. -/
def selPath : CTree → List String → List String
  | _, [] => []
  | t, _ :: args1 =>
    if t.sub.length > 0 then
      match args1 with
      | [] => []
      | name :: _ =>
        match lookupSub t.sub name with
        | some c => name :: selPath c args1
        | none => []
    else []

/-- The usage line exactly as the specification words it, with the size
threshold read as "30 characters" (code points). -/
def usageLineSpec (t : CTree) (store : List (Nat × ABindData)) : String :=
  if t.sub.isEmpty then
    "Usage: " ++ t.name ++ (if t.flags = [] then "" else " [flags]") ++
      (if t.argsb.isSome then " " ++ bindUsage t store else "")
  else
    let joined := "[" ++ String.intercalate "|" (sortStrings (t.sub.map Prod.fst)) ++ "]"
    "Usage: " ++ t.name ++ " " ++
      (if joined.length > 30 then "[subcommands...]" else joined)

/-- The usage line as the specification words it, except that the size
threshold is measured in UTF-8 bytes (Go's `len`). -/
def usageLineSpecBytes (t : CTree) (store : List (Nat × ABindData)) : String :=
  if t.sub.isEmpty then
    "Usage: " ++ t.name ++ (if t.flags = [] then "" else " [flags]") ++
      (if t.argsb.isSome then " " ++ bindUsage t store else "")
  else
    let joined := "[" ++ String.intercalate "|" (sortStrings (t.sub.map Prod.fst)) ++ "]"
    "Usage: " ++ t.name ++ " " ++
      (if joined.utf8ByteSize > 30 then "[subcommands...]" else joined)

/-- The declaration sequence of the specification's example scenario:
root `cmd` with sub commands `sub1` (string flag `flag1`, then its own sub
command `sub1` with string flag `flag11` and an unbounded `ArgsStr`) and
`sub2` (an `ArgsStr` created with capacity 1). -/
def buildC2 : Except String BSt := do
  let b1 ← subCommandAt (newRoot "cmd") [] "sub1"
  let b2 ← stringFlagAt b1 ["sub1"] "flag1" ""
  let b3 ← subCommandAt b2 ["sub1"] "sub1"
  let b4 ← stringFlagAt b3 ["sub1", "sub1"] "flag11" ""
  let b5 ← argsVarAt b4 ["sub1", "sub1"] (.str 0 []) none "" ""
  let b6 ← subCommandAt b5 [] "sub2"
  argsVarAt b6 ["sub2"] (.str 1 []) none "[arg]" "arg is a single argument"

def c2bst : BSt :=
  match buildC2 with
  | .ok b => b
  | .error _ => newRoot "cmd"

def c2args : List String :=
  ["cmd", "sub1", "sub1", "-flag11", "value11", "-flag1", "value1", "arg1", "arg2"]

def c2res : CTree × St × PRes := parseGo c2bst.t c2bst.st c2args

/-- A root whose single purpose is a leaf with a fixed-length-1 `ArgsInt`
binding. -/
def c3bst : BSt :=
  match argsVarAt (newRoot "cmd") [] (.int 1 []) none "" "" with
  | .ok b => b
  | .error _ => newRoot "cmd"

/-- Root `cmd` with child `sub1` which itself has a child, so that a help
token can appear as `sub1`'s sub-command-selection token. -/
def c7bst : BSt :=
  match (do
      let b1 ← subCommandAt (newRoot "cmd") [] "sub1"
      subCommandAt b1 ["sub1"] "subsub" : Except String BSt) with
  | .ok b => b
  | .error _ => newRoot "cmd"

/-- A node with six two-codepoint Greek sub-command names: the joined child
list is 19 characters but 31 UTF-8 bytes. -/
def c8greek : CTree :=
  .node "cmd" [] false none
    [("αα", .node "cmd αα" [] false none []), ("ββ", .node "cmd ββ" [] false none []),
     ("γγ", .node "cmd γγ" [] false none []), ("δδ", .node "cmd δδ" [] false none []),
     ("εε", .node "cmd εε" [] false none []), ("ζζ", .node "cmd ζζ" [] false none [])]

/-- The value of flag `name` as seen from the node at path `p` (the lookup
follows the node's own flag handle into the shared value heap). -/
def flagValue (t : CTree) (heap : List (Nat × String)) (p : List String)
    (name : String) : Option String :=
  (getNode t p).bind fun n => (findFlag n.flags name).bind fun f =>
    alookup heap f.ref

/-- The positional-argument value bound at the node at path `p`. -/
def bindValue (t : CTree) (store : List (Nat × ABindData)) (p : List String) :
    Option ABind :=
  (getNode t p).bind fun n => n.argsb.bind fun r =>
    (alookup store r).map ABindData.value

/-- The error message of a declaration step, when it raised one. -/
def declErr : Except String BSt → Option String
  | .error e => some e
  | .ok _ => none

/-- C2: on the example tree, parsing
`["cmd","sub1","sub1","-flag11","value11","-flag1","value1","arg1","arg2"]`
returns no error, marks `sub1` and `sub1 sub1` selected, sets `flag1` to
`"value1"` and `flag11` to `"value11"`, and binds the positional arguments
of the `sub1 sub1` leaf to `["arg1","arg2"]` in order. -/
theorem c2_example_scenario :
    c2res.2.2 = .ok [] ∧
    parsedAt c2res.1 ["sub1"] = some true ∧
    parsedAt c2res.1 ["sub1", "sub1"] = some true ∧
    flagValue c2res.1 c2res.2.1.flagHeap ["sub1"] "flag1" = some "value1" ∧
    flagValue c2res.1 c2res.2.1.flagHeap ["sub1", "sub1"] "flag11" = some "value11" ∧
    bindValue c2res.1 c2res.2.1.bindStore ["sub1", "sub1"] =
      some (.str 2 ["arg1", "arg2"]) := by
  refine ⟨rfl, rfl, rfl, rfl, rfl, rfl⟩

/-- C3 counterexample: a leaf with a fixed-length-1 `ArgsInt` binding and
exactly one leftover token still fails when the token is not an integer, so
"a parse with exactly K leftover tokens succeeds" is false for `ArgsInt`. -/
theorem c3_counterexample :
    (parseGo c3bst.t c3bst.st ["cmd", "x"]).2.2 =
      .err (.msg ("cmd: bad positional args: " ++
        "invalid int positional argument at position 0 with value x")) := by
  rfl

/-- C7 counterexample: with the help token as the sub-command-selection
token one level below the root, the root wraps the child's `flag.ErrHelp`
with `%v` formatting, so the caller receives an ordinary message error and
not the distinguished help value. -/
theorem c7_counterexample :
    (parseGo c7bst.t c7bst.st ["cmd", "sub1", "-h"]).2.2 =
      .err (.msg "cmd > flag: help requested") ∧
    (parseGo c7bst.t c7bst.st ["cmd", "sub1", "-h"]).2.2 ≠ .err .help := by
  refine ⟨rfl, by decide⟩

/-- C4 counterexample: positional arguments declared on the two sibling
nodes `a` and `b` (not on one root-to-leaf path) still raise an error,
because `a` has a sub command `c` when its declaration runs. -/
theorem c4_counterexample :
    declErr (runOps [.subc [] "a", .subc [] "b", .subc ["a"] "c",
        .argsv ["b"], .argsv ["a"]]) =
      some "positional args must be defined before defining sub commands" := by
  rfl

/-- C10 counterexample: `make(ArgsInt, 2)` (contents `[0,0]`) with input
`["x"]`, whose first non-integer token is at position 0: `Set` returns the
length-check error, not the position-0 conversion error, and the receiver
keeps its previous contents instead of being truncated. -/
theorem c10_counterexample :
    ABind.goSet (.int 2 [0, 0]) ["x"] =
      (.int 2 [0, 0], some "required 2 positional args, got [x]") ∧
    (ABind.goSet (.int 2 [0, 0]) ["x"]).2 ≠
      some ("invalid int positional argument at position 0 with value x") ∧
    (ABind.goSet (.int 2 [0, 0]) ["x"]).1 ≠ .int 2 [] := by
  refine ⟨rfl, by decide, by decide⟩

/-- C8 counterexample: on a node with six two-codepoint sub-command names
the joined list is 19 characters but 31 bytes, so the code (Go `len`, bytes)
prints the placeholder while the claim's 30-character threshold keeps the
literal list. -/
theorem c8_counterexample :
    usageLine c8greek [] ≠ usageLineSpec c8greek [] ∧
    usageLine c8greek [] = "Usage: cmd [subcommands...]" ∧
    usageLineSpec c8greek [] = "Usage: cmd [αα|ββ|γγ|δδ|εε|ζζ]" := by
  refine ⟨by decide, rfl, rfl⟩

theorem lookupSub_replaceSub_self :
    ∀ (l : List (String × CTree)) (s : String) (c c' : CTree),
      lookupSub l s = some c → lookupSub (replaceSub l s c') s = some c'
  | [], s, c, c', h => by simp [lookupSub] at h
  | (n, x) :: rest, s, c, c', h => by
      by_cases hn : n = s
      · simp [lookupSub, replaceSub, hn]
      · simp only [lookupSub, replaceSub, if_neg hn] at h ⊢
        exact lookupSub_replaceSub_self rest s c c' h

theorem lookupSub_replaceSub_ne :
    ∀ (l : List (String × CTree)) (s m : String) (c' : CTree), m ≠ s →
      lookupSub (replaceSub l s c') m = lookupSub l m
  | [], _, _, _, _ => rfl
  | (n, x) :: rest, s, m, c', h => by
      by_cases hn : n = s
      · subst hn
        simp only [replaceSub, if_pos rfl, lookupSub]
        rw [if_neg (fun hh => h hh.symm), if_neg (fun hh => h hh.symm)]
      · simp only [replaceSub, if_neg hn, lookupSub]
        by_cases hm : n = m
        · simp [hm]
        · simp only [if_neg hm]
          exact lookupSub_replaceSub_ne rest s m c' h

theorem modifyAt_error (f : CTree → Except String CTree) :
    ∀ (p : List String) (t n : CTree) (e : String),
      getNode t p = some n → f n = .error e → modifyAt f p t = .error e
  | [], t, n, e, hg, hf => by
      simp only [getNode, Option.some.injEq] at hg
      subst hg
      simpa [modifyAt] using hf
  | s :: p, t, n, e, hg, hf => by
      unfold getNode at hg
      unfold modifyAt
      cases h : lookupSub t.sub s with
      | none => rw [h] at hg; exact absurd hg (by simp)
      | some c =>
          rw [h] at hg
          dsimp only at hg ⊢
          rw [modifyAt_error f p c n e hg hf]

theorem lookupSub_isSome_iff :
    ∀ (l : List (String × CTree)) (name : String),
      (lookupSub l name).isSome = true ↔ name ∈ l.map Prod.fst
  | [], name => by simp [lookupSub]
  | (n, c) :: rest, name => by
      by_cases hn : n = name
      · simp [lookupSub, hn]
      · simp only [lookupSub, if_neg hn, List.map_cons, List.mem_cons]
        rw [lookupSub_isSome_iff rest name]
        constructor
        · exact Or.inr
        · rintro (h | h)
          · exact absurd h.symm hn
          · exact h

/-- C5: declaring a flag (string or bool) on a node that already has at
least one sub command fails at declaration time with the `checkNewFlag`
panic message, whatever the rest of the tree or earlier declarations look
like. -/
theorem c5_flag_after_subcommand (bst : BSt) (p : List String)
    (name dflt : String) (dfltB : Bool) (n : CTree)
    (hn : getNode bst.t p = some n) (hsub : 0 < n.sub.length) :
    stringFlagAt bst p name dflt =
      .error "flags must be defined before defining sub commands" ∧
    boolFlagAt bst p name dfltB =
      .error "flags must be defined before defining sub commands" := by
  have hf : ∀ isB ref, newFlagNode name isB ref n =
      .error "flags must be defined before defining sub commands" := by
    intro isB ref
    unfold newFlagNode
    rw [if_pos hsub]
  constructor
  · unfold stringFlagAt
    rw [modifyAt_error _ p bst.t n _ hn (hf false bst.next)]
  · unfold boolFlagAt
    rw [modifyAt_error _ p bst.t n _ hn (hf true bst.next)]

def c5bst : BSt :=
  match subCommandAt (newRoot "cmd") [] "sub" with
  | .ok b => b
  | .error _ => newRoot "cmd"

theorem c5_flag_after_subcommand_witness :
    stringFlagAt c5bst [] "flag" "" =
      .error "flags must be defined before defining sub commands" ∧
    boolFlagAt c5bst [] "flag" true =
      .error "flags must be defined before defining sub commands" :=
  c5_flag_after_subcommand c5bst [] "flag" "" true c5bst.t rfl (by decide)

/-- C6: sub-command lookup is an exact (hence case-sensitive) string match
against the child names, and an unmatched selection token yields
`invalid command: X` unless it is exactly `-h`, `-help` or `--help`, which
yield the help outcome instead. -/
theorem c6_unknown_subcommand (t : CTree) (st : St) (cmd name : String)
    (rest : List String) (hsub : 0 < t.sub.length)
    (hchk : checkFlagsTreeOk t [] = true) :
    ((lookupSub t.sub name).isSome = true ↔ name ∈ t.sub.map Prod.fst) ∧
    (lookupSub t.sub name = none →
      parseGo t st (cmd :: name :: rest) =
        (t, st, .err (if name = "-h" ∨ name = "-help" ∨ name = "--help"
          then .help else .msg ("invalid command: " ++ name)))) := by
  refine ⟨lookupSub_isSome_iff t.sub name, fun hlook => ?_⟩
  unfold parseGo
  rw [hchk]
  rw [if_neg (by decide : ¬ (true = false)), if_pos hsub]
  dsimp only
  rw [hlook]
  by_cases hh : name = "-h" ∨ name = "-help" ∨ name = "--help"
  · rw [if_pos hh, if_pos hh]
  · rw [if_neg hh, if_neg hh]

theorem c6_unknown_subcommand_witness :
    ((lookupSub c7bst.t.sub "nope").isSome = true ↔
      "nope" ∈ c7bst.t.sub.map Prod.fst) ∧
    (lookupSub c7bst.t.sub "nope" = none →
      parseGo c7bst.t c7bst.st ("cmd" :: "nope" :: []) =
        (c7bst.t, c7bst.st,
          .err (if "nope" = "-h" ∨ "nope" = "-help" ∨ "nope" = "--help"
            then .help else .msg ("invalid command: " ++ "nope")))) :=
  c6_unknown_subcommand c7bst.t c7bst.st "cmd" "nope" [] (by decide) (by decide)

theorem flagStage_ne_fatal (t : CTree) (st : St) (args : List String)
    (m : String) : (flagStage t st args).2.2 ≠ .fatal m := by
  unfold flagStage
  dsimp only
  cases hpr : (parseAll (t.withParsed true).flags st.flagHeap args).2 with
  | help => simp
  | err mm => simp
  | ok rest =>
      cases har : (setArgsGo (t.withParsed true).argsb st.bindStore rest).2 with
      | error mm => simp [har]
      | ok rest2 => simp [har]

/-- C9: parsing an empty token list panics with the message
"must be at least the command in arguments", and for every non-empty token
list that panic is unreachable at every recursion level, because each
recursive call passes the argument slice beginning at the matched
sub-command name. -/
theorem c9_empty_args_panic :
    (∀ t st, parseGo t st [] =
      (t, st, .fatal "must be at least the command in arguments")) ∧
    (∀ (args : List String) t st, args ≠ [] →
      (parseGo t st args).2.2 ≠
        .fatal "must be at least the command in arguments") := by
  constructor
  · intro t st; rfl
  · intro args
    induction args with
    | nil => intro t st h; exact absurd rfl h
    | cons cmd args1 ih =>
        intro t st _
        unfold parseGo
        by_cases hchk : checkFlagsTreeOk t [] = false
        · rw [if_pos hchk]
          intro hcontra
          simp only [Prod.snd] at hcontra
          exact absurd (PRes.fatal.inj hcontra) (by decide)
        · rw [if_neg hchk]
          by_cases hsub : t.sub.length > 0
          · rw [if_pos hsub]
            cases args1 with
            | nil => simp
            | cons name rest2 =>
                dsimp only
                cases hlook : lookupSub t.sub name with
                | none =>
                    by_cases hh : name = "-h" ∨ name = "-help" ∨ name = "--help"
                    · rw [if_pos hh]; simp
                    · rw [if_neg hh]; simp
                | some child =>
                    dsimp only
                    cases hr : (parseGo child st (name :: rest2)).2.2 with
                    | ok rest => exact flagStage_ne_fatal _ _ _ _
                    | err e => simp
                    | fatal m =>
                        have hne := ih child st (by simp)
                        rw [hr] at hne
                        simpa using fun hm => hne (by rw [hm])
          · rw [if_neg hsub]
            exact flagStage_ne_fatal _ _ _ _

theorem c9_empty_args_panic_witness :
    parseGo (newRoot "cmd").t (newRoot "cmd").st [] =
      ((newRoot "cmd").t, (newRoot "cmd").st,
        .fatal "must be at least the command in arguments") ∧
    (parseGo (newRoot "cmd").t (newRoot "cmd").st ["cmd"]).2.2 ≠
      .fatal "must be at least the command in arguments" :=
  ⟨c9_empty_args_panic.1 _ _,
   c9_empty_args_panic.2 ["cmd"] _ _ (by decide)⟩

theorem argsIntLoop_first_bad :
    ∀ (args : List String) (k : Nat) (acc : List Int) (i : Nat) (a : String),
      args.get? i = some a → goAtoi a = none →
      (∀ j, j < i → ∀ b, args.get? j = some b → (goAtoi b).isSome = true) →
      ∃ vals, (args.take i).mapM goAtoi = some vals ∧
        argsIntLoop args k acc = (acc ++ vals,
          some ("invalid int positional argument at position " ++
            toString (k + i) ++ " with value " ++ a))
  | [], _, _, i, a, hi, _, _ => by simp at hi
  | hd :: tl, k, acc, 0, a, hi, hbad, _ => by
      simp only [List.get?] at hi
      cases hi
      refine ⟨[], rfl, ?_⟩
      unfold argsIntLoop
      rw [hbad]
      simp
  | hd :: tl, k, acc, i + 1, a, hi, hbad, hpre => by
      simp only [List.get?] at hi
      have hhd : (goAtoi hd).isSome = true :=
        hpre 0 (Nat.succ_pos i) hd rfl
      obtain ⟨v, hv⟩ := Option.isSome_iff_exists.mp hhd
      have hpre' : ∀ j, j < i → ∀ b, tl.get? j = some b →
          (goAtoi b).isSome = true := by
        intro j hj b hb
        exact hpre (j + 1) (Nat.succ_lt_succ hj) b hb
      obtain ⟨vals, hmap, hloop⟩ :=
        argsIntLoop_first_bad tl (k + 1) (acc ++ [v]) i a hi hbad hpre'
      refine ⟨v :: vals, ?_, ?_⟩
      · simp only [List.take, List.mapM_cons, hv, hmap, Option.bind_eq_bind,
          Option.some_bind]
        rfl
      · unfold argsIntLoop
        rw [hv]
        dsimp only
        rw [hloop]
        have hk : k + 1 + i = k + (i + 1) := by omega
        rw [hk, List.append_assoc]
        rfl

/-- C10 amended: when the length check passes (capacity zero or exactly the
declared capacity) and the first non-integer token sits at position `i`,
`(*ArgsInt).Set` reports position `i` and that token, and the receiver has
been reset and holds exactly the integers converted from positions `0`
through `i-1`.  (With a capacity mismatch the length-check error fires first
and the receiver is untouched.) -/
theorem c10_argsint_not_atomic (cap : Nat) (w : List Int) (args : List String)
    (i : Nat) (a : String)
    (hcap : cap = 0 ∨ args.length = cap)
    (hi : args.get? i = some a) (hbad : goAtoi a = none)
    (hpre : ∀ j, j < i → ∀ b, args.get? j = some b →
      (goAtoi b).isSome = true) :
    ∃ vals, (args.take i).mapM goAtoi = some vals ∧
      ABind.goSet (.int cap w) args = (.int cap vals,
        some ("invalid int positional argument at position " ++
          toString i ++ " with value " ++ a)) := by
  obtain ⟨vals, hmap, hloop⟩ :=
    argsIntLoop_first_bad args 0 [] i a hi hbad hpre
  refine ⟨vals, hmap, ?_⟩
  have hcond : ¬ (cap > 0 ∧ args.length ≠ cap) := by
    rcases hcap with h | h
    · omega
    · intro hc; exact hc.2 h
  simp only [ABind.goSet]
  rw [if_neg hcond]
  simp [hloop]

theorem c10_argsint_not_atomic_witness :
    (((["3", "x", "5"] : List String).get? 1 = some "x") ∧
      goAtoi "x" = none) ∧
    ∃ vals, ((["3", "x", "5"] : List String).take 1).mapM goAtoi = some vals ∧
      ABind.goSet (.int 3 [7, 7, 7]) ["3", "x", "5"] = (.int 3 vals,
        some ("invalid int positional argument at position " ++
          toString 1 ++ " with value " ++ "x")) :=
  ⟨⟨by decide, by decide⟩,
   c10_argsint_not_atomic 3 [7, 7, 7] ["3", "x", "5"] 1 "x" (Or.inr (by decide))
     (by decide) (by decide)
     (by
       intro j hj b hb
       interval_cases j
       · simp only [List.get?] at hb
         cases hb
         decide)⟩

theorem argsIntLoop_all_ok :
    ∀ (args : List String) (k : Nat) (acc : List Int) (vals : List Int),
      args.mapM goAtoi = some vals →
      argsIntLoop args k acc = (acc ++ vals, none)
  | [], _, acc, vals, h => by
      simp only [List.mapM_nil, pure, Option.some.injEq] at h
      subst h
      simp [argsIntLoop]
  | hd :: tl, k, acc, vals, h => by
      simp only [List.mapM_cons] at h
      cases hhd : goAtoi hd with
      | none => rw [hhd] at h; simp at h
      | some v =>
          rw [hhd] at h
          cases hmt : tl.mapM goAtoi with
          | none => rw [hmt] at h; simp at h
          | some vs =>
              rw [hmt] at h
              simp only [Option.pure_def, Option.bind_eq_bind,
                Option.some_bind, Option.some.injEq] at h
              subst h
              unfold argsIntLoop
              rw [hhd]
              dsimp only
              rw [argsIntLoop_all_ok tl (k + 1) (acc ++ [v]) vs hmt,
                List.append_assoc]
              rfl

/-- C3 amended: for a fixed-length binding of length `K > 0`:
an `ArgsStr` set succeeds exactly on `K` tokens and then stores the tokens
in their original order; an `ArgsInt` set fails on any other length, and on
exactly `K` tokens succeeds precisely when every token converts, storing the
converted integers; and at the `setArgs` stage (default check
configuration), an `ArgsStr` binding accepts the leftover tokens exactly
when there are `K` of them. -/
theorem c3_fixed_length_binding (K : Nat) (hK : 0 < K) (v : List String)
    (w : List Int) (args : List String) :
    ((ABind.goSet (.str K v) args).2 = none ↔ args.length = K) ∧
    (args.length = K → ABind.goSet (.str K v) args = (.str K args, none)) ∧
    (args.length ≠ K → (ABind.goSet (.int K w) args).2.isSome = true) ∧
    (∀ vals, args.mapM goAtoi = some vals → args.length = K →
      ABind.goSet (.int K w) args = (.int K vals, none)) ∧
    (∀ r (store : List (Nat × ABindData)) u d,
      alookup store r = some ⟨.str K v, none, u, d⟩ →
      ((setArgsGo (some r) store args).2 = .ok [] ↔ args.length = K)) := by
  refine ⟨?_, ?_, ?_, ?_, ?_⟩
  · simp only [ABind.goSet]
    by_cases h : args.length = K
    · rw [if_neg (by omega)]
      simp [h]
    · rw [if_pos ⟨hK, h⟩]
      simp [h]
  · intro h
    simp only [ABind.goSet]
    rw [if_neg (by omega), h]
  · intro h
    simp only [ABind.goSet]
    rw [if_pos ⟨hK, h⟩]
    simp
  · intro vals hmap h
    simp only [ABind.goSet]
    rw [if_neg (by omega)]
    rw [argsIntLoop_all_ok args 0 [] vals hmap]
    simp
  · intro r store u d hstore
    unfold setArgsGo
    dsimp only
    rw [hstore]
    dsimp only
    have hfind : args.find? (fun a => !predictCheckOk none a) = none := by
      apply List.find?_eq_none.mpr
      intro x _
      simp [predictCheckOk]
    rw [hfind]
    dsimp only
    by_cases h : args.length = K
    · simp only [ABind.goSet]
      rw [if_neg (by omega)]
      simp [h]
    · simp only [ABind.goSet]
      rw [if_pos ⟨hK, h⟩]
      simp [h]

theorem c3_fixed_length_binding_witness :
    ((ABind.goSet (.str 1 []) ["a"]).2 = none ↔
      (["a"] : List String).length = 1) ∧
    ((["a"] : List String).length = 1 →
      ABind.goSet (.str 1 []) ["a"] = (.str 1 ["a"], none)) ∧
    ((["a"] : List String).length ≠ 1 →
      (ABind.goSet (.int 1 []) ["a"]).2.isSome = true) ∧
    (∀ vals, (["a"] : List String).mapM goAtoi = some vals →
      (["a"] : List String).length = 1 →
      ABind.goSet (.int 1 []) ["a"] = (.int 1 vals, none)) ∧
    (∀ r (store : List (Nat × ABindData)) u d,
      alookup store r = some ⟨.str 1 [], none, u, d⟩ →
      ((setArgsGo (some r) store ["a"]).2 = .ok [] ↔
        (["a"] : List String).length = 1)) :=
  c3_fixed_length_binding 1 (by decide) [] [] ["a"]

/-- C7 amended: the distinguished `flag.ErrHelp` value reaches the caller
exactly when a help token is the sub-command-selection token at the root;
when a child's parse returns any error — the help value included — the
parent wraps it with `%v` formatting into a plain message error, so below
the root the caller receives `"<name> > flag: help requested"` and not
`flag.ErrHelp`. -/
theorem c7_help_propagation :
    (∀ (t : CTree) (st : St) (cmd h : String) (rest : List String),
      (h = "-h" ∨ h = "-help" ∨ h = "--help") →
      0 < t.sub.length → checkFlagsTreeOk t [] = true →
      lookupSub t.sub h = none →
      parseGo t st (cmd :: h :: rest) = (t, st, .err .help)) ∧
    (∀ (t : CTree) (st : St) (cmd name : String) (args1 : List String)
      (child : CTree) (e : Err),
      0 < t.sub.length → checkFlagsTreeOk t [] = true →
      lookupSub t.sub name = some child →
      (parseGo child st (name :: args1)).2.2 = .err e →
      (parseGo t st (cmd :: name :: args1)).2.2 =
        .err (.msg (t.name ++ " > " ++ errText e))) ∧
    (∀ s, Err.msg s ≠ Err.help) := by
  refine ⟨?_, ?_, fun s h => by cases h⟩
  · intro t st cmd h rest hh hsub hchk hlook
    unfold parseGo
    rw [hchk]
    rw [if_neg (by decide : ¬ (true = false)), if_pos hsub]
    dsimp only
    rw [hlook]
    rw [if_pos hh]
  · intro t st cmd name args1 child e hsub hchk hlook hchild
    unfold parseGo
    rw [hchk]
    rw [if_neg (by decide : ¬ (true = false)), if_pos hsub]
    dsimp only
    rw [hlook]
    dsimp only
    rw [hchild]

theorem c7_help_propagation_witness :
    parseGo c7bst.t c7bst.st ("cmd" :: "-h" :: []) =
      (c7bst.t, c7bst.st, .err .help) ∧
    (parseGo c7bst.t c7bst.st ("cmd" :: "sub1" :: ["-h"])).2.2 =
      .err (.msg (c7bst.t.name ++ " > " ++
        errText (Err.help))) :=
  ⟨c7_help_propagation.1 c7bst.t c7bst.st "cmd" "-h" [] (Or.inl rfl)
      (by decide) (by decide) rfl,
   c7_help_propagation.2.1 c7bst.t c7bst.st "cmd" "sub1" ["-h"]
      (CTree.node "cmd sub1" [] false none
        [("subsub", CTree.node "cmd sub1 subsub" [] false none [])])
      Err.help (by decide) (by decide) rfl (by decide)⟩

theorem str_append_assoc (a b c : String) : a ++ b ++ c = a ++ (b ++ c) := by
  obtain ⟨la⟩ := a
  obtain ⟨lb⟩ := b
  obtain ⟨lc⟩ := c
  show String.append (String.append ⟨la⟩ ⟨lb⟩) ⟨lc⟩ =
    String.append ⟨la⟩ (String.append ⟨lb⟩ ⟨lc⟩)
  simp [String.append, List.append_assoc]

theorem str_append_empty (s : String) : s ++ "" = s := by
  obtain ⟨ls⟩ := s
  show String.append ⟨ls⟩ ⟨[]⟩ = ⟨ls⟩
  simp [String.append]

theorem insertSorted_length (s : String) :
    ∀ l : List String, (insertSorted s l).length = l.length + 1
  | [] => rfl
  | x :: rest => by
      unfold insertSorted
      by_cases h : strLe s x
      · rw [if_pos h]; rfl
      · rw [if_neg h]
        simp only [List.length_cons, insertSorted_length s rest]

theorem sortStrings_length (l : List String) :
    (sortStrings l).length = l.length := by
  induction l with
  | nil => rfl
  | cons x rest ih =>
      show (insertSorted x (sortStrings rest)).length = rest.length + 1
      rw [insertSorted_length, ih]

/-- C8 amended: the rendered usage line follows the claim's formula
exactly, except that the 30-unit threshold for the joined sub-command list
is measured in UTF-8 bytes (Go's `len`), not characters. -/
theorem c8_usage_line (t : CTree) (store : List (Nat × ABindData)) :
    usageLine t store = usageLineSpecBytes t store := by
  obtain ⟨nm, fl, pr, ab, sub⟩ := t
  cases sub with
  | nil =>
      cases ab with
      | none =>
          cases fl with
          | nil =>
              show "Usage: " ++ nm = "Usage: " ++ nm ++ "" ++ ""
              rw [str_append_empty, str_append_empty]
          | cons f fs =>
              show "Usage: " ++ nm ++ " [flags]" =
                "Usage: " ++ nm ++ " [flags]" ++ ""
              rw [str_append_empty]
      | some r =>
          cases fl with
          | nil =>
              show "Usage: " ++ nm ++ " " ++
                  (Option.map ABindData.usage (alookup store r)).getD "" =
                "Usage: " ++ nm ++ "" ++
                  (" " ++ (Option.map ABindData.usage (alookup store r)).getD "")
              rw [str_append_empty, str_append_assoc]
          | cons f fs =>
              show "Usage: " ++ nm ++ " [flags]" ++ " " ++
                  (Option.map ABindData.usage (alookup store r)).getD "" =
                "Usage: " ++ nm ++ " [flags]" ++
                  (" " ++ (Option.map ABindData.usage (alookup store r)).getD "")
              rw [str_append_assoc]
  | cons hd tl =>
      have hlen : (sortStrings (List.map Prod.fst (hd :: tl))).length =
          tl.length + 1 := by
        rw [sortStrings_length]
        simp
      unfold usageLine usageLineSpecBytes subNames
      dsimp only [CTree.sub, CTree.name]
      rw [hlen]
      rw [if_neg (Nat.succ_ne_zero tl.length)]
      rfl

theorem allUnparsed_node (nm : String) (fl : List FlagDef) (pr : Bool)
    (ab : Option Nat) (sub : List (String × CTree)) :
    allUnparsed (.node nm fl pr ab sub) = ((!pr) && allUnparsedSubs sub) := by
  rfl

theorem allUnparsedSubs_lookup :
    ∀ (l : List (String × CTree)) (s : String) (c : CTree),
      allUnparsedSubs l = true → lookupSub l s = some c → allUnparsed c = true
  | [], s, c, _, hl => by simp [lookupSub] at hl
  | (n, x) :: rest, s, c, ha, hl => by
      rw [show allUnparsedSubs ((n, x) :: rest) =
        (allUnparsed x && allUnparsedSubs rest) from rfl] at ha
      simp only [Bool.and_eq_true] at ha
      by_cases hn : n = s
      · rw [lookupSub, if_pos hn] at hl
        cases hl
        exact ha.1
      · rw [lookupSub, if_neg hn] at hl
        exact allUnparsedSubs_lookup rest s c ha.2 hl

theorem allUnparsed_getNode :
    ∀ (p : List String) (t n : CTree), allUnparsed t = true →
      getNode t p = some n → n.parsed = false
  | [], t, n, hu, hg => by
      rw [getNode] at hg
      injection hg with h
      subst h
      obtain ⟨nm, fl, pr, ab, sub⟩ := t
      rw [allUnparsed_node] at hu
      simp only [Bool.and_eq_true, Bool.not_eq_true'] at hu
      exact hu.1
  | s :: p, t, n, hu, hg => by
      rw [getNode] at hg
      cases hl : lookupSub t.sub s with
      | none => rw [hl] at hg; exact absurd hg (by simp)
      | some c =>
          rw [hl] at hg
          have hc : allUnparsed c = true := by
            obtain ⟨nm, fl, pr, ab, sub⟩ := t
            rw [allUnparsed_node] at hu
            simp only [Bool.and_eq_true] at hu
            exact allUnparsedSubs_lookup sub s c hu.2 hl
          exact allUnparsed_getNode p c n hc hg

theorem flagStage_fst (t : CTree) (st : St) (args : List String) :
    (flagStage t st args).1 = t.withParsed true := by
  unfold flagStage
  dsimp only
  cases hpr : (parseAll (t.withParsed true).flags st.flagHeap args).2 with
  | help => rfl
  | err m => rfl
  | ok rest =>
      dsimp only
      cases (setArgsGo (t.withParsed true).argsb st.bindStore rest).2 <;> rfl

theorem withParsed_sub (t : CTree) (b : Bool) : (t.withParsed b).sub = t.sub := by
  obtain ⟨nm, fl, pr, ab, sub⟩ := t
  rfl

theorem withParsed_parsed (t : CTree) (b : Bool) :
    (t.withParsed b).parsed = b := by
  obtain ⟨nm, fl, pr, ab, sub⟩ := t
  rfl

theorem withSub_sub (t : CTree) (l : List (String × CTree)) :
    (t.withSub l).sub = l := by
  obtain ⟨nm, fl, pr, ab, sub⟩ := t
  rfl

theorem getNode_cons (t : CTree) (s : String) (p : List String) :
    getNode t (s :: p) =
      match lookupSub t.sub s with
      | some c => getNode c p
      | none => none := by
  rw [getNode]

/-- C1: on any fully-unparsed declared tree, a successful parse marks
`Parsed` exactly on the nodes of the dispatch path determined by the token
sequence, that path ends at a leaf, and every node off the path stays
unmarked. -/
theorem c1_selected_path :
    ∀ (args : List String) (t : CTree) (st : St) (t' : CTree) (st' : St)
      (rest : List String),
      allUnparsed t = true →
      parseGo t st args = (t', st', .ok rest) →
      ((getNode t' (selPath t args)).map (fun n => n.sub.isEmpty) =
        some true) ∧
      (∀ p, (getNode t' p).isSome = true →
        (parsedAt t' p = some true ↔ p <+: selPath t args)) := by
  intro args
  induction args with
  | nil =>
      intro t st t' st' rest _ h
      rw [parseGo] at h
      simp only [Prod.mk.injEq] at h
      exact absurd h.2.2 (by simp)
  | cons cmd args1 ih =>
      intro t st t' st' rest hun h
      unfold parseGo at h
      by_cases hchk : checkFlagsTreeOk t [] = false
      · rw [if_pos hchk] at h
        simp only [Prod.mk.injEq] at h
        exact absurd h.2.2 (by simp)
      · rw [if_neg hchk] at h
        by_cases hsub : t.sub.length > 0
        · rw [if_pos hsub] at h
          have hsel0 : selPath t (cmd :: args1) =
              (if t.sub.length > 0 then
                match args1 with
                | [] => []
                | name :: _ =>
                  match lookupSub t.sub name with
                  | some c => name :: selPath c args1
                  | none => []
              else []) := rfl
          cases args1 with
          | nil =>
              simp only [Prod.mk.injEq] at h
              exact absurd h.2.2 (by simp)
          | cons name rest2 =>
              dsimp only at h
              rw [if_pos hsub] at hsel0
              dsimp only at hsel0
              cases hlook : lookupSub t.sub name with
              | none =>
                  rw [hlook] at h
                  by_cases hh : name = "-h" ∨ name = "-help" ∨ name = "--help"
                  · rw [if_pos hh] at h
                    simp only [Prod.mk.injEq] at h
                    exact absurd h.2.2 (by simp)
                  · rw [if_neg hh] at h
                    simp only [Prod.mk.injEq] at h
                    exact absurd h.2.2 (by simp)
              | some child =>
                  rw [hlook] at h
                  rw [hlook] at hsel0
                  dsimp only at h hsel0
                  rcases hr : parseGo child st (name :: rest2) with ⟨child', st1, r⟩
                  rw [hr] at h
                  dsimp only at h
                  cases r with
                  | err e =>
                      simp only [Prod.mk.injEq] at h
                      exact absurd h.2.2 (by simp)
                  | fatal m =>
                      simp only [Prod.mk.injEq] at h
                      exact absurd h.2.2 (by simp)
                  | ok crest =>
                      have hchild : allUnparsed child = true := by
                        obtain ⟨nm, fl, pr, ab, sub⟩ := t
                        rw [allUnparsed_node] at hun
                        simp only [Bool.and_eq_true] at hun
                        exact allUnparsedSubs_lookup sub name child hun.2 hlook
                      obtain ⟨ihleaf, ihmarks⟩ :=
                        ih child st child' st1 crest hchild hr
                      have ht' : t' =
                          (t.withSub (replaceSub t.sub name child')).withParsed
                            true := by
                        have h1 := congrArg Prod.fst h
                        rw [flagStage_fst] at h1
                        exact h1.symm
                      subst ht'
                      rw [hsel0]
                      have hgetcons : ∀ (q : List String),
                          getNode ((t.withSub (replaceSub t.sub name
                            child')).withParsed true) (name :: q) =
                            getNode child' q := by
                        intro q
                        rw [getNode_cons, withParsed_sub, withSub_sub,
                          lookupSub_replaceSub_self t.sub name child child' hlook]
                      constructor
                      · rw [hgetcons]
                        exact ihleaf
                      · intro p hp
                        cases p with
                        | nil =>
                            simp only [parsedAt, getNode, Option.map_some',
                              withParsed_parsed]
                            simp [List.nil_prefix]
                        | cons s p' =>
                            by_cases hs : s = name
                            · subst hs
                              rw [hgetcons] at hp
                              unfold parsedAt
                              rw [hgetcons]
                              rw [List.cons_prefix_cons]
                              have := ihmarks p' hp
                              unfold parsedAt at this
                              rw [this]
                              simp
                            · have hget : getNode ((t.withSub (replaceSub
                                  t.sub name child')).withParsed true)
                                  (s :: p') = getNode t (s :: p') := by
                                rw [getNode_cons, withParsed_sub, withSub_sub,
                                  lookupSub_replaceSub_ne t.sub name s child'
                                    hs, getNode_cons]
                              rw [hget] at hp
                              unfold parsedAt
                              rw [hget]
                              constructor
                              · intro hparsed
                                exfalso
                                rw [getNode_cons] at hp hparsed
                                cases hl2 : lookupSub t.sub s with
                                | none =>
                                    rw [hl2] at hp
                                    simp at hp
                                | some c0 =>
                                    rw [hl2] at hparsed
                                    dsimp only at hparsed
                                    have hc0 : allUnparsed c0 = true := by
                                      obtain ⟨nm, fl, pr, ab, sub⟩ := t
                                      rw [allUnparsed_node] at hun
                                      simp only [Bool.and_eq_true] at hun
                                      exact allUnparsedSubs_lookup sub s c0
                                        hun.2 hl2
                                    cases hg2 : getNode c0 p' with
                                    | none => rw [hg2] at hparsed; simp at hparsed
                                    | some nn =>
                                        rw [hg2] at hparsed
                                        have := allUnparsed_getNode p' c0 nn
                                          hc0 hg2
                                        simp only [Option.map_some',
                                          Option.some.injEq] at hparsed
                                        rw [this] at hparsed
                                        exact Bool.false_ne_true hparsed
                              · intro hpre
                                exfalso
                                rw [List.cons_prefix_cons] at hpre
                                exact hs hpre.1
        · rw [if_neg hsub] at h
          have ht' : t' = t.withParsed true := by
            have h1 := congrArg Prod.fst h
            rw [flagStage_fst] at h1
            exact h1.symm
          subst ht'
          have hsel : selPath t (cmd :: args1) = [] := by
            unfold selPath
            rw [if_neg hsub]
          rw [hsel]
          have hsubnil : t.sub = [] := by
            rcases ht : t.sub with _ | ⟨hd, tl⟩
            · rfl
            · rw [ht] at hsub
              exact absurd (by simp) hsub
          constructor
          · rw [getNode]
            simp only [Option.map_some', Option.some.injEq]
            rw [withParsed_sub, hsubnil]
            rfl
          · intro p hp
            cases p with
            | nil =>
                simp only [parsedAt, getNode, Option.map_some',
                  withParsed_parsed]
                simp
            | cons s p' =>
                rw [getNode_cons, withParsed_sub, hsubnil] at hp
                simp [lookupSub] at hp

theorem c1_selected_path_witness :
    allUnparsed c2bst.t = true ∧
    ((getNode c2res.1 (selPath c2bst.t c2args)).map (fun n => n.sub.isEmpty) =
      some true) ∧
    (∀ p, (getNode c2res.1 p).isSome = true →
      (parsedAt c2res.1 p = some true ↔ p <+: selPath c2bst.t c2args)) :=
  ⟨by decide,
   c1_selected_path c2args c2bst.t c2bst.st c2res.1 c2res.2.1 []
     (by decide) rfl⟩

mutual

/-- Every node of the tree carries a positional binding reference. -/
def allArgs : CTree → Bool
  | .node _ _ _ a sub => a.isSome && allArgsSubs sub

def allArgsSubs : List (String × CTree) → Bool
  | [] => true
  | (_, c) :: rest => allArgs c && allArgsSubs rest

end

mutual

/-- The binding-inheritance invariant of declared trees: below any node that
carries a positional binding, every node carries one (`SubCommand` copies
`c.args` into each new child). -/
def argsDown : CTree → Bool
  | .node _ _ _ a sub =>
      if a.isSome then allArgsSubs sub else argsDownSubs sub

def argsDownSubs : List (String × CTree) → Bool
  | [] => true
  | (_, c) :: rest => argsDown c && argsDownSubs rest

end

theorem allArgs_node (nm : String) (fl : List FlagDef) (pr : Bool)
    (ab : Option Nat) (sub : List (String × CTree)) :
    allArgs (.node nm fl pr ab sub) = (ab.isSome && allArgsSubs sub) := rfl

theorem argsDown_node (nm : String) (fl : List FlagDef) (pr : Bool)
    (ab : Option Nat) (sub : List (String × CTree)) :
    argsDown (.node nm fl pr ab sub) =
      (if ab.isSome then allArgsSubs sub else argsDownSubs sub) := rfl

theorem allArgsSubs_cons (s : String) (c : CTree)
    (rest : List (String × CTree)) :
    allArgsSubs ((s, c) :: rest) = (allArgs c && allArgsSubs rest) := rfl

theorem argsDownSubs_cons (s : String) (c : CTree)
    (rest : List (String × CTree)) :
    argsDownSubs ((s, c) :: rest) = (argsDown c && argsDownSubs rest) := rfl

theorem allArgsSubs_lookup :
    ∀ (l : List (String × CTree)) (s : String) (c : CTree),
      allArgsSubs l = true → lookupSub l s = some c → allArgs c = true
  | [], s, c, _, hl => by simp [lookupSub] at hl
  | (n, x) :: rest, s, c, ha, hl => by
      rw [allArgsSubs_cons, Bool.and_eq_true] at ha
      by_cases hn : n = s
      · rw [lookupSub, if_pos hn] at hl
        cases hl
        exact ha.1
      · rw [lookupSub, if_neg hn] at hl
        exact allArgsSubs_lookup rest s c ha.2 hl

theorem argsDownSubs_lookup :
    ∀ (l : List (String × CTree)) (s : String) (c : CTree),
      argsDownSubs l = true → lookupSub l s = some c → argsDown c = true
  | [], s, c, _, hl => by simp [lookupSub] at hl
  | (n, x) :: rest, s, c, ha, hl => by
      rw [argsDownSubs_cons, Bool.and_eq_true] at ha
      by_cases hn : n = s
      · rw [lookupSub, if_pos hn] at hl
        cases hl
        exact ha.1
      · rw [lookupSub, if_neg hn] at hl
        exact argsDownSubs_lookup rest s c ha.2 hl

theorem allArgs_getNode :
    ∀ (q : List String) (t m : CTree), allArgs t = true →
      getNode t q = some m → m.argsb.isSome = true
  | [], t, m, ha, hg => by
      rw [getNode] at hg
      injection hg with h
      subst h
      obtain ⟨nm, fl, pr, ab, sub⟩ := t
      rw [allArgs_node, Bool.and_eq_true] at ha
      exact ha.1
  | s :: q, t, m, ha, hg => by
      rw [getNode] at hg
      cases hl : lookupSub t.sub s with
      | none => rw [hl] at hg; exact absurd hg (by simp)
      | some c =>
          rw [hl] at hg
          have hc : allArgs c = true := by
            obtain ⟨nm, fl, pr, ab, sub⟩ := t
            rw [allArgs_node, Bool.and_eq_true] at ha
            exact allArgsSubs_lookup sub s c ha.2 hl
          exact allArgs_getNode q c m hc hg

mutual

theorem allArgs_argsDown : ∀ t : CTree, allArgs t = true → argsDown t = true
  | .node nm fl pr ab sub, h => by
      rw [allArgs_node, Bool.and_eq_true] at h
      rw [argsDown_node, if_pos h.1]
      exact h.2

theorem allArgsSubs_argsDownSubs :
    ∀ l : List (String × CTree), allArgsSubs l = true → argsDownSubs l = true
  | [], _ => rfl
  | (s, c) :: rest, h => by
      rw [allArgsSubs_cons, Bool.and_eq_true] at h
      rw [argsDownSubs_cons, Bool.and_eq_true]
      exact ⟨allArgs_argsDown c h.1, allArgsSubs_argsDownSubs rest h.2⟩

end

theorem argsDown_child (t : CTree) (s : String) (c : CTree)
    (hd : argsDown t = true) (hl : lookupSub t.sub s = some c) :
    argsDown c = true := by
  obtain ⟨nm, fl, pr, ab, sub⟩ := t
  rw [argsDown_node] at hd
  cases hab : ab.isSome with
  | true =>
      rw [hab, if_pos rfl] at hd
      exact allArgs_argsDown c (allArgsSubs_lookup sub s c hd hl)
  | false =>
      rw [hab] at hd
      simp only [Bool.false_eq_true, if_false] at hd
      exact argsDownSubs_lookup sub s c hd hl

/-- The bridge: under the inheritance invariant, every existing descendant
of a binding-carrying node carries a binding. -/
theorem argsDown_descendant :
    ∀ (p : List String) (t : CTree) (q : List String) (n m : CTree),
      argsDown t = true → getNode t p = some n → n.argsb.isSome = true →
      getNode t (p ++ q) = some m → m.argsb.isSome = true
  | [], t, q, n, m, hd, hn, ha, hm => by
      rw [getNode] at hn
      injection hn with h
      subst h
      rw [List.nil_append] at hm
      cases q with
      | nil =>
          rw [getNode] at hm
          injection hm with h2
          subst h2
          exact ha
      | cons s q' =>
          rw [getNode] at hm
          cases hl : lookupSub t.sub s with
          | none => rw [hl] at hm; exact absurd hm (by simp)
          | some c =>
              rw [hl] at hm
              have hc : allArgs c = true := by
                obtain ⟨nm2, fl, pr, ab, sub⟩ := t
                rw [argsDown_node] at hd
                simp only [CTree.argsb] at ha
                rw [if_pos ha] at hd
                exact allArgsSubs_lookup sub s c hd hl
              exact allArgs_getNode q' c m hc hm
  | s :: p, t, q, n, m, hd, hn, ha, hm => by
      rw [getNode] at hn
      rw [List.cons_append, getNode] at hm
      cases hl : lookupSub t.sub s with
      | none =>
          rw [hl] at hn
          exact absurd hn (by simp)
      | some c =>
          rw [hl] at hn hm
          exact argsDown_descendant p c q n m (argsDown_child t s c hd hl)
            hn ha hm

theorem allArgsSubs_append (l1 l2 : List (String × CTree)) :
    allArgsSubs (l1 ++ l2) = (allArgsSubs l1 && allArgsSubs l2) := by
  induction l1 with
  | nil => simp [allArgsSubs]
  | cons hd tl ih =>
      obtain ⟨s, c⟩ := hd
      rw [List.cons_append, allArgsSubs_cons, allArgsSubs_cons, ih,
        Bool.and_assoc]

theorem argsDownSubs_append (l1 l2 : List (String × CTree)) :
    argsDownSubs (l1 ++ l2) = (argsDownSubs l1 && argsDownSubs l2) := by
  induction l1 with
  | nil => simp [argsDownSubs]
  | cons hd tl ih =>
      obtain ⟨s, c⟩ := hd
      rw [List.cons_append, argsDownSubs_cons, argsDownSubs_cons, ih,
        Bool.and_assoc]

theorem allArgsSubs_replaceSub :
    ∀ (l : List (String × CTree)) (s : String) (c2 : CTree),
      allArgsSubs l = true → allArgs c2 = true →
      allArgsSubs (replaceSub l s c2) = true
  | [], _, _, _, _ => rfl
  | (n, x) :: rest, s, c2, hl, hc => by
      rw [allArgsSubs_cons, Bool.and_eq_true] at hl
      rw [replaceSub]
      by_cases hn : n = s
      · rw [if_pos hn, allArgsSubs_cons, Bool.and_eq_true]
        exact ⟨hc, hl.2⟩
      · rw [if_neg hn, allArgsSubs_cons, Bool.and_eq_true]
        exact ⟨hl.1, allArgsSubs_replaceSub rest s c2 hl.2 hc⟩

theorem argsDownSubs_replaceSub :
    ∀ (l : List (String × CTree)) (s : String) (c2 : CTree),
      argsDownSubs l = true → argsDown c2 = true →
      argsDownSubs (replaceSub l s c2) = true
  | [], _, _, _, _ => rfl
  | (n, x) :: rest, s, c2, hl, hc => by
      rw [argsDownSubs_cons, Bool.and_eq_true] at hl
      rw [replaceSub]
      by_cases hn : n = s
      · rw [if_pos hn, argsDownSubs_cons, Bool.and_eq_true]
        exact ⟨hc, hl.2⟩
      · rw [if_neg hn, argsDownSubs_cons, Bool.and_eq_true]
        exact ⟨hl.1, argsDownSubs_replaceSub rest s c2 hl.2 hc⟩

theorem replaceSub_map_fst :
    ∀ (l : List (String × CTree)) (s : String) (c2 : CTree),
      (replaceSub l s c2).map Prod.fst = l.map Prod.fst
  | [], _, _ => rfl
  | (n, x) :: rest, s, c2 => by
      rw [replaceSub]
      by_cases hn : n = s
      · rw [if_pos hn]
        simp
      · rw [if_neg hn]
        simp only [List.map_cons]
        rw [replaceSub_map_fst rest s c2]

theorem withSub_argsb (t : CTree) (l : List (String × CTree)) :
    (t.withSub l).argsb = t.argsb := by
  obtain ⟨nm, fl, pr, ab, sub⟩ := t
  rfl

theorem modifyAt_nil (f : CTree → Except String CTree) (t : CTree) :
    modifyAt f [] t = f t := rfl

theorem modifyAt_cons_ok (f : CTree → Except String CTree) (s : String)
    (p : List String) (t t' : CTree) (h : modifyAt f (s :: p) t = .ok t') :
    ∃ c c2, lookupSub t.sub s = some c ∧ modifyAt f p c = .ok c2 ∧
      t' = t.withSub (replaceSub t.sub s c2) := by
  unfold modifyAt at h
  cases hl : lookupSub t.sub s with
  | none => rw [hl] at h; exact absurd h (by simp)
  | some c =>
      rw [hl] at h
      dsimp only at h
      cases hm : modifyAt f p c with
      | error e => rw [hm] at h; exact absurd h (by simp)
      | ok c2 =>
          rw [hm] at h
          dsimp only at h
          injection h with h2
          exact ⟨c, c2, rfl, hm, h2.symm⟩

theorem subCommandNode_ok (name : String) (n n' : CTree)
    (h : subCommandNode name n = .ok n') :
    n' = n.withSub (n.sub ++
      [(name, .node (n.name ++ " " ++ name) n.flags false n.argsb [])]) := by
  unfold subCommandNode at h
  split at h
  · exact absurd h (by simp)
  · split at h
    · exact absurd h (by simp)
    · split at h
      · exact absurd h (by simp)
      · injection h with h2
        exact h2.symm

theorem argsVarNode_ok (ref : Nat) (n n' : CTree)
    (h : argsVarNode ref n = .ok n') :
    n.sub.length = 0 ∧ n.argsb = none ∧
      n' = .node n.name n.flags n.parsed (some ref) n.sub := by
  unfold argsVarNode at h
  split at h
  next hc1 => exact absurd h (by simp)
  next hc1 =>
    split at h
    next hc2 => exact absurd h (by simp)
    next hc2 =>
      refine ⟨by omega, ?_, ?_⟩
      · cases hab : n.argsb with
        | none => rfl
        | some r => rw [hab] at hc2; simp at hc2
      · injection h with h2
        exact h2.symm

theorem modifyAt_pres (f : CTree → Except String CTree)
    (hf1 : ∀ n n', f n = .ok n' → argsDown n = true → argsDown n' = true)
    (hf2 : ∀ n n', f n = .ok n' → allArgs n = true → allArgs n' = true) :
    ∀ (p : List String) (t t' : CTree), modifyAt f p t = .ok t' →
      (argsDown t = true → argsDown t' = true) ∧
      (allArgs t = true → allArgs t' = true)
  | [], t, t', h => ⟨hf1 t t' h, hf2 t t' h⟩
  | s :: p, t, t', h => by
      obtain ⟨c, c2, hl, hm, ht'⟩ := modifyAt_cons_ok f s p t t' h
      obtain ⟨ihd, iha⟩ := modifyAt_pres f hf1 hf2 p c c2 hm
      subst ht'
      obtain ⟨nm, fl, pr, ab, sub⟩ := t
      simp only [CTree.sub] at hl
      constructor
      · intro hd
        rw [argsDown_node] at hd
        show argsDown (.node nm fl pr ab (replaceSub sub s c2)) = true
        rw [argsDown_node]
        cases hab : ab.isSome with
        | true =>
            rw [hab, if_pos rfl] at hd
            rw [if_pos rfl]
            have hc : allArgs c = true := allArgsSubs_lookup sub s c hd hl
            have hc2 : allArgs c2 = true :=
              (modifyAt_pres f hf1 hf2 p c c2 hm).2 hc
            exact allArgsSubs_replaceSub sub s c2 hd hc2
        | false =>
            rw [hab] at hd
            rw [if_neg (by simp)] at hd
            rw [if_neg (by simp)]
            have hc : argsDown c = true := argsDownSubs_lookup sub s c hd hl
            exact argsDownSubs_replaceSub sub s c2 (by exact hd) (ihd hc)
      · intro ha
        rw [allArgs_node, Bool.and_eq_true] at ha
        show allArgs (.node nm fl pr ab (replaceSub sub s c2)) = true
        rw [allArgs_node, Bool.and_eq_true]
        have hc : allArgs c = true := allArgsSubs_lookup sub s c ha.2 hl
        exact ⟨ha.1, allArgsSubs_replaceSub sub s c2 ha.2 (iha hc)⟩

theorem modifyAt_none_error (f : CTree → Except String CTree) :
    ∀ (p : List String) (t : CTree), getNode t p = none →
      ∀ t2, modifyAt f p t ≠ .ok t2
  | [], t, hg, t2 => by rw [getNode] at hg; exact absurd hg (by simp)
  | s :: p, t, hg, t2 => by
      intro h
      obtain ⟨c, c2, hl, hm, _⟩ := modifyAt_cons_ok f s p t t2 h
      rw [getNode, hl] at hg
      dsimp only at hg
      exact modifyAt_none_error f p c hg c2 hm

theorem modifyAt_ok_of (f : CTree → Except String CTree) :
    ∀ (p : List String) (t n : CTree), getNode t p = some n →
      ∀ n', f n = .ok n' → ∃ t2, modifyAt f p t = .ok t2
  | [], t, n, hg, n', hf => by
      rw [getNode] at hg
      injection hg with h
      subst h
      exact ⟨n', hf⟩
  | s :: p, t, n, hg, n', hf => by
      rw [getNode] at hg
      cases hl : lookupSub t.sub s with
      | none => rw [hl] at hg; exact absurd hg (by simp)
      | some c =>
          rw [hl] at hg
          dsimp only at hg
          obtain ⟨t2, hm⟩ := modifyAt_ok_of f p c n hg n' hf
          refine ⟨t.withSub (replaceSub t.sub s t2), ?_⟩
          unfold modifyAt
          rw [hl]
          dsimp only
          rw [hm]

theorem modifyAt_frame (f : CTree → Except String CTree)
    (hf : ∀ n n', f n = .ok n' → n'.sub = n.sub ∧ n'.name = n.name) :
    ∀ (p : List String) (t t' : CTree), modifyAt f p t = .ok t' →
      ∀ q, ¬ (p <+: q) →
        (getNode t' q).map (fun nn => (nn.argsb, nn.sub.map Prod.fst)) =
          (getNode t q).map (fun nn => (nn.argsb, nn.sub.map Prod.fst))
  | [], t, t', h, q, hq => absurd List.nil_prefix hq
  | s :: p, t, t', h, q, hq => by
      obtain ⟨c, c2, hl, hm, ht'⟩ := modifyAt_cons_ok f s p t t' h
      subst ht'
      cases q with
      | nil =>
          rw [getNode, getNode]
          simp only [Option.map_some']
          rw [withSub_argsb, withSub_sub, replaceSub_map_fst]
      | cons s' q' =>
          by_cases hs : s' = s
          · subst hs
            have hq' : ¬ (p <+: q') := by
              intro hpre
              exact hq (List.cons_prefix_cons.mpr ⟨rfl, hpre⟩)
            rw [getNode_cons, getNode_cons, withSub_sub,
              lookupSub_replaceSub_self t.sub s' c c2 hl, hl]
            exact modifyAt_frame f hf p c c2 hm q' hq'
          · rw [getNode_cons, getNode_cons, withSub_sub,
              lookupSub_replaceSub_ne t.sub s s' c2 hs]

theorem getNode_append : ∀ (p q : List String) (t : CTree),
    getNode t (p ++ q) = (getNode t p).bind (fun n => getNode n q)
  | [], q, t => by rw [List.nil_append, getNode, Option.some_bind]
  | s :: p, q, t => by
      rw [List.cons_append, getNode_cons, getNode_cons]
      cases hl : lookupSub t.sub s with
      | none => rfl
      | some c =>
          dsimp only
          exact getNode_append p q c

theorem lookupSub_isSome_length (l : List (String × CTree)) (s : String)
    (h : (lookupSub l s).isSome = true) : 0 < l.length := by
  cases l with
  | nil => simp [lookupSub] at h
  | cons hd tl => simp

theorem subCommandNode_pres (name : String) (n n' : CTree)
    (h : subCommandNode name n = .ok n') :
    (argsDown n = true → argsDown n' = true) ∧
    (allArgs n = true → allArgs n' = true) := by
  have hshape := subCommandNode_ok name n n' h
  subst hshape
  obtain ⟨nm, fl, pr, ab, sub⟩ := n
  simp only [CTree.sub, CTree.name, CTree.flags, CTree.argsb, CTree.withSub]
  constructor
  · intro hd
    rw [argsDown_node] at hd
    rw [argsDown_node]
    cases hab : ab.isSome with
    | true =>
        rw [hab, if_pos rfl] at hd
        rw [if_pos rfl, allArgsSubs_append, Bool.and_eq_true]
        refine ⟨hd, ?_⟩
        rw [allArgsSubs_cons, allArgs_node]
        simp [hab, allArgsSubs]
    | false =>
        rw [hab] at hd
        rw [if_neg (by simp)] at hd
        rw [if_neg (by simp), argsDownSubs_append, Bool.and_eq_true]
        refine ⟨hd, ?_⟩
        rw [argsDownSubs_cons, argsDown_node]
        simp [hab, argsDownSubs]
  · intro ha
    rw [allArgs_node, Bool.and_eq_true] at ha
    rw [allArgs_node, Bool.and_eq_true]
    refine ⟨ha.1, ?_⟩
    rw [allArgsSubs_append, Bool.and_eq_true]
    refine ⟨ha.2, ?_⟩
    rw [allArgsSubs_cons, allArgs_node]
    simp [ha.1, allArgsSubs]

theorem argsVarNode_pres (ref : Nat) (n n' : CTree)
    (h : argsVarNode ref n = .ok n') :
    (argsDown n = true → argsDown n' = true) ∧
    (allArgs n = true → allArgs n' = true) := by
  obtain ⟨hlen, hab, hshape⟩ := argsVarNode_ok ref n n' h
  subst hshape
  obtain ⟨nm, fl, pr, ab, sub⟩ := n
  simp only [CTree.sub] at hlen
  simp only [CTree.argsb] at hab
  subst hab
  have hsub : sub = [] := List.length_eq_zero.mp hlen
  subst hsub
  constructor
  · intro _
    rfl
  · intro ha
    rw [allArgs_node] at ha
    simp at ha

theorem argsVarAt_ok_inv (bst : BSt) (p : List String) (v : ABind)
    (ch : Option (List String)) (u d : String) (bst2 : BSt)
    (h : argsVarAt bst p v ch u d = .ok bst2) :
    modifyAt (argsVarNode bst.next) p bst.t = .ok bst2.t := by
  unfold argsVarAt at h
  cases hm : modifyAt (argsVarNode bst.next) p bst.t with
  | error e => rw [hm] at h; exact absurd h (by simp)
  | ok t2 =>
      rw [hm] at h
      dsimp only at h
      injection h with h2
      rw [← h2]

theorem subCommandAt_ok_inv (bst : BSt) (p : List String) (name : String)
    (bst2 : BSt) (h : subCommandAt bst p name = .ok bst2) :
    modifyAt (subCommandNode name) p bst.t = .ok bst2.t := by
  unfold subCommandAt at h
  cases hm : modifyAt (subCommandNode name) p bst.t with
  | error e => rw [hm] at h; exact absurd h (by simp)
  | ok t2 =>
      rw [hm] at h
      dsimp only at h
      injection h with h2
      rw [← h2]

theorem applyOp_argsDown (bst bst2 : BSt) (op : BOp)
    (h : applyOp bst op = .ok bst2) (hd : argsDown bst.t = true) :
    argsDown bst2.t = true := by
  cases op with
  | subc p name =>
      have hm := subCommandAt_ok_inv bst p name bst2 h
      exact (modifyAt_pres (subCommandNode name)
        (fun n n' hh => (subCommandNode_pres name n n' hh).1)
        (fun n n' hh => (subCommandNode_pres name n n' hh).2)
        p bst.t bst2.t hm).1 hd
  | argsv p =>
      have hm := argsVarAt_ok_inv bst p (.str 0 []) none "" "" bst2 h
      exact (modifyAt_pres (argsVarNode bst.next)
        (fun n n' hh => (argsVarNode_pres bst.next n n' hh).1)
        (fun n n' hh => (argsVarNode_pres bst.next n n' hh).2)
        p bst.t bst2.t hm).1 hd

theorem runOpsFrom_argsDown :
    ∀ (ops : List BOp) (bst bst2 : BSt), runOpsFrom bst ops = .ok bst2 →
      argsDown bst.t = true → argsDown bst2.t = true
  | [], bst, bst2, h, hd => by
      rw [runOpsFrom] at h
      injection h with h2
      rw [← h2]
      exact hd
  | op :: rest, bst, bst2, h, hd => by
      rw [runOpsFrom] at h
      cases ha : applyOp bst op with
      | error e => rw [ha] at h; exact absurd h (by simp)
      | ok b2 =>
          rw [ha] at h
          dsimp only at h
          exact runOpsFrom_argsDown rest b2 bst2 h
            (applyOp_argsDown bst b2 op ha hd)

theorem runOps_argsDown (ops : List BOp) (bst : BSt)
    (h : runOps ops = .ok bst) : argsDown bst.t = true :=
  runOpsFrom_argsDown ops (newRoot "cmd") bst h rfl

/-- C4 amended: declaring positional arguments on an ancestor and a
descendant fails in either order — a node with an existing strict descendant
refuses the declaration outright, and in any tree built by declarations from
a fresh root a binding propagates to every descendant, so a strict
descendant of a binding-carrying node refuses it too.  Declarations on two
nodes not on one root-to-leaf path succeed when each node, at its own
declaration, has no sub commands and no (own or inherited) binding; a
successful declaration leaves the binding and children of every
non-descendant node unchanged.  (The claim's unconditional "never raises an
error" for non-same-path nodes is false: see the counterexample, where the
addressed node already has a sub command.) -/
theorem c4_positional_declarations :
    (∀ (bst : BSt) (p : List String) (s : String) (q : List String)
      (v : ABind) (ch : Option (List String)) (u d : String),
      (getNode bst.t (p ++ s :: q)).isSome = true →
      argsVarAt bst p v ch u d =
        .error "positional args must be defined before defining sub commands") ∧
    (∀ (ops : List BOp) (bst : BSt), runOps ops = .ok bst →
      ∀ (p : List String) (n : CTree), getNode bst.t p = some n →
        n.argsb.isSome = true →
        ∀ (q : List String) (v : ABind) (ch : Option (List String))
          (u d : String) (bst2 : BSt), q ≠ [] →
          argsVarAt bst (p ++ q) v ch u d ≠ .ok bst2) ∧
    (∀ (bst : BSt) (p : List String) (n : CTree) (v : ABind)
      (ch : Option (List String)) (u d : String),
      getNode bst.t p = some n → n.sub.length = 0 → n.argsb = none →
      ∃ bst2, argsVarAt bst p v ch u d = .ok bst2) ∧
    (∀ (bst bst2 : BSt) (p q : List String) (v : ABind)
      (ch : Option (List String)) (u d : String),
      argsVarAt bst p v ch u d = .ok bst2 → ¬ (p <+: q) →
      (getNode bst2.t q).map (fun nn => (nn.argsb, nn.sub.map Prod.fst)) =
        (getNode bst.t q).map (fun nn => (nn.argsb, nn.sub.map Prod.fst))) := by
  refine ⟨?_, ?_, ?_, ?_⟩
  · intro bst p s q v ch u d hdesc
    rw [getNode_append] at hdesc
    cases hn : getNode bst.t p with
    | none => rw [hn] at hdesc; simp at hdesc
    | some n =>
        rw [hn, Option.some_bind] at hdesc
        rw [getNode_cons] at hdesc
        have hlen : 0 < n.sub.length := by
          cases hl : lookupSub n.sub s with
          | none => rw [hl] at hdesc; simp at hdesc
          | some c => exact lookupSub_isSome_length n.sub s (by rw [hl]; rfl)
        have hf : argsVarNode bst.next n = .error
            "positional args must be defined before defining sub commands" := by
          unfold argsVarNode
          rw [if_pos hlen]
        unfold argsVarAt
        rw [modifyAt_error _ p bst.t n _ hn hf]
  · intro ops bst hrun p n hn ha q v ch u d bst2 hq hok
    have hd := runOps_argsDown ops bst hrun
    have hmod := argsVarAt_ok_inv bst (p ++ q) v ch u d bst2 hok
    cases hget : getNode bst.t (p ++ q) with
    | none => exact modifyAt_none_error _ (p ++ q) bst.t hget bst2.t hmod
    | some m =>
        have hm : m.argsb.isSome = true :=
          argsDown_descendant p bst.t q n m hd hn ha hget
        have hf : ∃ e, argsVarNode bst.next m = .error e := by
          unfold argsVarNode
          by_cases hlen : m.sub.length > 0
          · rw [if_pos hlen]
            exact ⟨_, rfl⟩
          · rw [if_neg hlen, if_pos hm]
            exact ⟨_, rfl⟩
        obtain ⟨e, hfe⟩ := hf
        rw [modifyAt_error _ (p ++ q) bst.t m e hget hfe] at hmod
        exact absurd hmod (by simp)
  · intro bst p n v ch u d hn hlen hab
    have hok : argsVarNode bst.next n =
        .ok (.node n.name n.flags n.parsed (some bst.next) n.sub) := by
      unfold argsVarNode
      rw [if_neg (by omega), hab]
      rfl
    obtain ⟨t2, hmod⟩ := modifyAt_ok_of _ p bst.t n hn _ hok
    refine ⟨BSt.mk t2 (bst.next + 1) (St.mk bst.st.flagHeap
      (aset bst.st.bindStore bst.next
        (ABindData.mk v ch (if u = "" then "[args...]" else u) d))), ?_⟩
    unfold argsVarAt
    rw [hmod]
  · intro bst bst2 p q v ch u d hok hpre
    have hmod := argsVarAt_ok_inv bst p v ch u d bst2 hok
    exact modifyAt_frame (argsVarNode bst.next)
      (fun n n' hh => by
        obtain ⟨_, _, hsh⟩ := argsVarNode_ok bst.next n n' hh
        subst hsh
        exact ⟨rfl, rfl⟩)
      p bst.t bst2.t hmod q hpre

def c4ops : List BOp := [.subc [] "a", .argsv ["a"], .subc ["a"] "b"]

def c4bst : BSt :=
  match runOps c4ops with
  | .ok b => b
  | .error _ => newRoot "cmd"

def c4nodeA : CTree :=
  .node "cmd a" [] false (some 0) [("b", .node "cmd a b" [] false (some 0) [])]

def c4after : BSt :=
  match argsVarAt c5bst ["sub"] (.str 0 []) none "" "" with
  | .ok b => b
  | .error _ => newRoot "cmd"

theorem c4_positional_declarations_witness :
    (argsVarAt c7bst [] (.str 0 []) none "" "" =
      .error "positional args must be defined before defining sub commands") ∧
    (∀ bst2, argsVarAt c4bst (["a"] ++ ["b"]) (.str 0 []) none "" "" ≠
      .ok bst2) ∧
    (∃ bst2, argsVarAt c5bst ["sub"] (.str 0 []) none "" "" = .ok bst2) ∧
    ((getNode c4after.t []).map (fun nn => (nn.argsb, nn.sub.map Prod.fst)) =
      (getNode c5bst.t []).map (fun nn => (nn.argsb, nn.sub.map Prod.fst))) :=
  ⟨c4_positional_declarations.1 c7bst [] "sub1" ["subsub"] (.str 0 []) none
     "" "" (by decide),
   fun bst2 => c4_positional_declarations.2.1 c4ops c4bst rfl ["a"] c4nodeA
     rfl rfl ["b"] (.str 0 []) none "" "" bst2 (by decide),
   c4_positional_declarations.2.2.1 c5bst ["sub"]
     (.node "cmd sub" [] false none []) (.str 0 []) none "" "" rfl rfl rfl,
   c4_positional_declarations.2.2.2 c5bst c4after ["sub"] [] (.str 0 [])
     none "" "" rfl (by decide)⟩
